import Mathlib

/-
Verification of the asyncstorageapi repository (src/index.js): an in-memory
AsyncStorage implementation backed by a Map, with a deep merge over parsed
JSON values and a callback/promise wrapper around every operation.

The embedding below translates src/index.js and the ECMAScript builtins it
relies on (Map, Object.keys, Object.assign, property access, JSON.parse,
JSON.stringify) into executable Lean definitions.  Modelling scope, noted
once here and at the relevant definitions:
- JavaScript numbers are modelled as integers, which covers every numeric
  value the repository and its tests manipulate.
- Plain objects are modelled as insertion-ordered association lists with
  unique keys, as produced by JSON.parse; the ECMAScript rule that integer
  keys enumerate first is not modelled, so facts stated below never depend
  on the field order of objects holding integer-like keys.
- String length and character indexing are by code point.
-/

namespace AsyncStorageApi

/-- A JavaScript value as it can appear in this library: JSON data together
with the JavaScript undefined value. -/
inductive JSValue where
  | undef : JSValue
  | null : JSValue
  | bool : Bool → JSValue
  | num : Int → JSValue
  | str : String → JSValue
  | arr : List JSValue → JSValue
  | obj : List (String × JSValue) → JSValue

/-- The errors the embedded code can raise: the Error thrown by the string
type guards, the SyntaxError of JSON.parse, and the TypeError raised by
property access on undefined or null and by Object.assign writing a
read-only index of a primitive string. -/
inductive JSErr where
  | typeValidation : JSErr
  | decodeFailure : JSErr
  | typeError : JSErr
deriving DecidableEq

/-- The instanceof Object test used by the filter inside merge: arrays and
objects are instances of Object, primitives are not. -/
def JSValue.isObject : JSValue → Bool
  | .arr _ => true
  | .obj _ => true
  | _ => false

/-- Property lookup on a plain object, first entry with the given key. -/
def objLookup : List (String × JSValue) → String → Option JSValue
  | [], _ => none
  | (k', v) :: rest, k => if k' = k then some v else objLookup rest k

/-- Property write on a plain object: updates the entry in place when the key
is present, keeping its position, and appends a new entry otherwise, which is
the ECMAScript insertion-order rule for string keys. -/
def objSet : List (String × JSValue) → String → JSValue → List (String × JSValue)
  | [], k, v => [(k, v)]
  | (k', v') :: rest, k, v =>
      if k' = k then (k, v) :: rest else (k', v') :: objSet rest k v

/-- The decimal digit characters. -/
def digitChar : Nat → Char
  | 0 => '0'
  | 1 => '1'
  | 2 => '2'
  | 3 => '3'
  | 4 => '4'
  | 5 => '5'
  | 6 => '6'
  | 7 => '7'
  | 8 => '8'
  | _ => '9'

/-- Decimal rendering of a natural number, most significant digit first. -/
def natToChars (n : Nat) : List Char :=
  if n < 10 then [digitChar n]
  else natToChars (n / 10) ++ [digitChar (n % 10)]
termination_by n
decreasing_by
  exact Nat.div_lt_self (by omega) (by omega)

/-- The decimal string for a natural number, used for array index keys. -/
def strOfNat (n : Nat) : String :=
  String.mk (natToChars n)

/-- Test for a decimal digit character. -/
def isDigitChar (c : Char) : Bool :=
  decide ('0' ≤ c) && decide (c ≤ '9')

/-- Numeric value of a digit character. -/
def digitVal (c : Char) : Nat :=
  c.toNat - 48

/-- Value of a big-endian digit list. -/
def charsVal (ds : List Char) : Nat :=
  ds.foldl (fun a c => 10 * a + digitVal c) 0

/-- Canonical array index: a property key denotes the index n exactly when it
is the canonical decimal rendering of n (all digits, no leading zero). -/
def canonIndex (k : String) : Option Nat :=
  match k.data with
  | [] => none
  | c :: rest =>
      if (c :: rest).all isDigitChar && (decide (rest = []) || decide (c ≠ '0'))
      then some (charsVal (c :: rest))
      else none

/-- Element write on an array: in range it replaces the element, past the end
it extends the array; the holes such an extension creates are rendered as
null by JSON.stringify and are modelled as null directly. -/
def arrSet (elems : List JSValue) (i : Nat) (v : JSValue) : List JSValue :=
  if i < elems.length then elems.set i v
  else elems ++ List.replicate (i - elems.length) JSValue.null ++ [v]

/-- Index entries of an array segment, keys counting up from j. -/
def indexEntriesFrom (j : Nat) : List JSValue → List (String × JSValue)
  | [] => []
  | v :: rest => (strOfNat j, v) :: indexEntriesFrom (j + 1) rest

/-- Index entries of an array, as Object.keys and Object.assign see them. -/
def indexEntries (elems : List JSValue) : List (String × JSValue) :=
  indexEntriesFrom 0 elems

/-- Index entries of a primitive string: its characters, one per index, are
enumerable own properties of the wrapper object ToObject builds from it. -/
def strIndexEntries (s : String) : List (String × JSValue) :=
  indexEntriesFrom 0 (s.data.map (fun c => JSValue.str (String.mk [c])))

/-- The own enumerable entries of a value when it is used as the source of an
Object.assign: fields of an object, index entries of an array or string, and
nothing for the remaining primitives (null and undefined sources are ignored
and number or boolean wrappers have no enumerable own properties). -/
def entriesOf : JSValue → List (String × JSValue)
  | .obj fields => fields
  | .arr elems => indexEntries elems
  | .str s => strIndexEntries s
  | _ => []

/-- The value merge returns: either the mutated object or array itself, or
the wrapper object produced when the first argument of the final
Object.assign is a truthy primitive, carrying the properties assigned onto
it. -/
inductive MergedVal where
  | plain : JSValue → MergedVal
  | wrapped : JSValue → List (String × JSValue) → MergedVal

/-- Own enumerable entries of a merge result, as seen by the Object.assign
that copies it back onto the data value. -/
def MergedVal.ownEnum : MergedVal → List (String × JSValue)
  | .plain v => entriesOf v
  | .wrapped (.str s) added => strIndexEntries s ++ added
  | .wrapped _ added => added

/-- Field lookup on a merge result that is a plain object. -/
def MergedVal.lookupKey : MergedVal → String → Option JSValue
  | .plain (.obj fields), k => objLookup fields k
  | _, _ => none

/-- The expression target || curly braces from merge: every falsy target
(undefined, null, false, 0, the empty string) is replaced by a fresh empty
object. -/
def jsOr : Option JSValue → JSValue
  | none => .obj []
  | some .undef => .obj []
  | some .null => .obj []
  | some (.bool false) => .obj []
  | some (.num 0) => .obj []
  | some (.str "") => .obj []
  | some v => v

/-- Property read target[key]: on undefined or null it raises a TypeError;
objects look the key up, arrays and strings answer canonical indices and
length, numbers and booleans have no own properties. -/
def jsGet : Option JSValue → String → Except JSErr (Option JSValue)
  | none, _ => .error .typeError
  | some .undef, _ => .error .typeError
  | some .null, _ => .error .typeError
  | some (.obj fields), k => .ok (objLookup fields k)
  | some (.arr elems), k =>
      if k = "length" then .ok (some (.num (elems.length : Int)))
      else .ok (match canonIndex k with
        | some i => elems.get? i
        | none => none)
  | some (.str s), k =>
      if k = "length" then .ok (some (.num (s.data.length : Int)))
      else .ok (match canonIndex k with
        | some i => (s.data.get? i).map (fun c => .str (String.mk [c]))
        | none => none)
  | some (.num _), _ => .ok none
  | some (.bool _), _ => .ok none

/-- Object.assign onto an object or array target, returning the mutated
target.  Non-index properties assigned onto an array are invisible to
JSON.stringify and to every later read the merge performs, and are dropped. -/
def assignOnto (t : JSValue) (entries : List (String × JSValue)) : JSValue :=
  match t with
  | .obj fields => .obj (entries.foldl (fun fs p => objSet fs p.1 p.2) fields)
  | .arr elems => .arr (entries.foldl (fun es p =>
      match canonIndex p.1 with
      | some i => arrSet es i p.2
      | none => es) elems)
  | other => other

/-- Property list build-up for the wrapper case of Object.assign. -/
def addProps (added entries : List (String × JSValue)) : List (String × JSValue) :=
  entries.foldl (fun fs p => objSet fs p.1 p.2) added

/-- The final Object.assign of merge, whose first argument is target after
the falsy guard: objects and arrays are mutated and returned; a truthy
primitive is wrapped by ToObject, where writing a canonical index below the
length of a primitive string hits a read-only property and raises a
TypeError; ToObject on undefined or null raises a TypeError (unreachable
behind the falsy guard). -/
def assignFinal (base : JSValue) (entries : List (String × JSValue)) : Except JSErr MergedVal :=
  match base with
  | .obj _ => .ok (.plain (assignOnto base entries))
  | .arr _ => .ok (.plain (assignOnto base entries))
  | .str s =>
      if entries.any (fun p =>
          match canonIndex p.1 with
          | some i => decide (i < s.data.length)
          | none => false)
      then .error .typeError
      else .ok (.wrapped (.str s) (addProps [] entries))
  | .undef => .error .typeError
  | .null => .error .typeError
  | p => .ok (.wrapped p (addProps [] entries))

mutual
/-- The deep merge of src/index.js, lines 16 to 22.  The function takes
Object.keys of data, keeps the keys whose value is an instance of Object,
and for each such key k performs, in order,
Object.assign of data[k] with merge of target[k] and data[k];
it then returns Object.assign of target-or-empty-object with data.
Object.keys of null or undefined raises a TypeError. -/
def merge (target : Option JSValue) (data : JSValue) : Except JSErr MergedVal :=
  match data with
  | .undef => .error .typeError
  | .null => .error .typeError
  | .obj fields =>
      match mergeFields target fields with
      | .error e => .error e
      | .ok fields' => assignFinal (jsOr target) fields'
  | .arr elems =>
      match mergeElems target 0 elems with
      | .error e => .error e
      | .ok elems' => assignFinal (jsOr target) (indexEntries elems')
  | prim => assignFinal (jsOr target) (entriesOf prim)
termination_by sizeOf data

/-- The filter and forEach phase of merge over the fields of an object: each
field whose value is an array or object is replaced by the result of
assigning the recursive merge back onto it; a throw inside the forEach
propagates immediately. -/
def mergeFields (target : Option JSValue) (fs : List (String × JSValue)) : Except JSErr (List (String × JSValue)) :=
  match fs with
  | [] => .ok []
  | (k, v) :: rest =>
      if v.isObject then
        match jsGet target k with
        | .error e => .error e
        | .ok tv =>
          match merge tv v with
          | .error e => .error e
          | .ok m =>
            match mergeFields target rest with
            | .error e => .error e
            | .ok rest' => .ok ((k, assignOnto v m.ownEnum) :: rest')
      else
        match mergeFields target rest with
        | .error e => .error e
        | .ok rest' => .ok ((k, v) :: rest')
termination_by sizeOf fs

/-- The filter and forEach phase of merge over the elements of an array,
whose Object.keys are the decimal index strings counting up from j. -/
def mergeElems (target : Option JSValue) (j : Nat) (es : List JSValue) : Except JSErr (List JSValue) :=
  match es with
  | [] => .ok []
  | v :: rest =>
      if v.isObject then
        match jsGet target (strOfNat j) with
        | .error e => .error e
        | .ok tv =>
          match merge tv v with
          | .error e => .error e
          | .ok m =>
            match mergeElems target (j + 1) rest with
            | .error e => .error e
            | .ok rest' => .ok (assignOnto v m.ownEnum :: rest')
      else
        match mergeElems target (j + 1) rest with
        | .error e => .error e
        | .ok rest' => .ok (v :: rest')
termination_by sizeOf es
end

/-- The internal dataset of src/index.js, a Map from string keys to the
stored string values, modelled as its insertion-ordered entry list. -/
abbrev Store := List (String × String)

/-- Map.prototype.get: the value stored under the key, if any. -/
def mapGet : Store → String → Option String
  | [], _ => none
  | (k', v) :: rest, k => if k' = k then some v else mapGet rest k

/-- Map.prototype.has. -/
def mapHas (store : Store) (k : String) : Bool :=
  (mapGet store k).isSome

/-- Map.prototype.set: updates the entry in place when the key is present,
keeping its insertion position, and appends otherwise. -/
def mapSet : Store → String → String → Store
  | [], k, v => [(k, v)]
  | (k', v') :: rest, k, v =>
      if k' = k then (k, v) :: rest else (k', v') :: mapSet rest k v

/-- Map.prototype.delete: removes the entry for the key and reports whether
it was present.  Keys in a Map are unique, so removing every entry with the
key coincides with removing the entry for the key. -/
def mapDelete (store : Store) (k : String) : Store × Bool :=
  (store.filter (fun p => p.1 ≠ k), store.any (fun p => p.1 = k))

/-- Map.prototype.keys, in insertion order. -/
def mapKeys (store : Store) : List String :=
  store.map Prod.fst

/-- A value an underlying operation can produce: either a JavaScript value
or the internal Map itself, which Map.prototype.set returns and setItem and
mergeItem pass through. -/
inductive JSRes where
  | val : JSValue → JSRes
  | mapRef : JSRes

/-- JSON string parsing state: plain recursive descent over the character
list.  Escapes are restricted to the single-character ones; a \u escape is
rejected, which no value in this repository uses. -/
def parseStrChars : List Char → Except JSErr (List Char × List Char)
  | [] => .error .decodeFailure
  | c :: rest =>
      if c = '"' then .ok ([], rest)
      else if c = '\\' then
        match rest with
        | [] => .error .decodeFailure
        | e :: rest' =>
            let esc : Option Char :=
              if e = '"' then some '"'
              else if e = '\\' then some '\\'
              else if e = '/' then some '/'
              else if e = 'n' then some '\n'
              else if e = 't' then some '\t'
              else if e = 'r' then some '\r'
              else none
            match esc with
            | none => .error .decodeFailure
            | some ch =>
                match parseStrChars rest' with
                | .error err => .error err
                | .ok (cs, rem) => .ok (ch :: cs, rem)
      else
        match parseStrChars rest with
        | .error err => .error err
        | .ok (cs, rem) => .ok (c :: cs, rem)

/-- Leading whitespace removal. -/
def skipWs : List Char → List Char
  | c :: rest =>
      if c = ' ' ∨ c = '\n' ∨ c = '\t' ∨ c = '\r' then skipWs rest else c :: rest
  | [] => []

/-- Match a literal character sequence. -/
def dropLit : List Char → List Char → Option (List Char)
  | [], cs => some cs
  | l :: ls, c :: cs => if c = l then dropLit ls cs else none
  | _ :: _, [] => none

/-- Split off a leading run of digit characters. -/
def takeDigits : List Char → List Char × List Char
  | [] => ([], [])
  | c :: rest =>
      if isDigitChar c then
        let (ds, rem) := takeDigits rest
        (c :: ds, rem)
      else ([], c :: rest)

mutual
/-- Models the ECMAScript JSON.parse grammar as used by mergeItem and
multiMerge, restricted to integer numeric literals: a fraction or exponent
makes the parse fail, which no value this repository stores uses.  The fuel
argument bounds the nesting depth and is always supplied larger than the
input length, which the nesting depth cannot exceed. -/
def parseVal (fuel : Nat) (cs : List Char) : Except JSErr (JSValue × List Char) :=
  match fuel with
  | 0 => .error .decodeFailure
  | fuel + 1 =>
      match skipWs cs with
      | [] => .error .decodeFailure
      | c :: rest =>
          if c = 'n' then
            match dropLit ['u', 'l', 'l'] rest with
            | some rem => .ok (.null, rem)
            | none => .error .decodeFailure
          else if c = 't' then
            match dropLit ['r', 'u', 'e'] rest with
            | some rem => .ok (.bool true, rem)
            | none => .error .decodeFailure
          else if c = 'f' then
            match dropLit ['a', 'l', 's', 'e'] rest with
            | some rem => .ok (.bool false, rem)
            | none => .error .decodeFailure
          else if c = '"' then
            match parseStrChars rest with
            | .error err => .error err
            | .ok (cs', rem) => .ok (.str (String.mk cs'), rem)
          else if c = '-' then
            match takeDigits rest with
            | ([], _) => .error .decodeFailure
            | (d :: ds, rem) =>
                if decide (ds = []) || decide (d ≠ '0')
                then .ok (.num (-(charsVal (d :: ds) : Int)), rem)
                else .error .decodeFailure
          else if isDigitChar c then
            let (ds, rem) := takeDigits rest
            if decide (ds = []) || decide (c ≠ '0')
            then .ok (.num (charsVal (c :: ds) : Int), rem)
            else .error .decodeFailure
          else if c = '[' then
            match skipWs rest with
            | ']' :: rem => .ok (.arr [], rem)
            | other => parseElems fuel other []
          else if c = '\x7b' then
            match skipWs rest with
            | '\x7d' :: rem => .ok (.obj [], rem)
            | other => parseMembers fuel other []
          else .error .decodeFailure

/-- Array elements after the opening bracket, accumulated in reverse. -/
def parseElems (fuel : Nat) (cs : List Char) (acc : List JSValue) : Except JSErr (JSValue × List Char) :=
  match fuel with
  | 0 => .error .decodeFailure
  | fuel + 1 =>
      match parseVal fuel cs with
      | .error err => .error err
      | .ok (v, rem) =>
          match skipWs rem with
          | ',' :: rem' => parseElems fuel rem' (v :: acc)
          | ']' :: rem' => .ok (.arr (v :: acc).reverse, rem')
          | _ => .error .decodeFailure

/-- Object members after the opening brace, accumulated with the ECMAScript
duplicate-key rule: the first occurrence keeps its position, the last value
wins. -/
def parseMembers (fuel : Nat) (cs : List Char) (acc : List (String × JSValue)) : Except JSErr (JSValue × List Char) :=
  match fuel with
  | 0 => .error .decodeFailure
  | fuel + 1 =>
      match skipWs cs with
      | '"' :: rest =>
          match parseStrChars rest with
          | .error err => .error err
          | .ok (kcs, rem) =>
              match skipWs rem with
              | ':' :: rem' =>
                  match parseVal fuel rem' with
                  | .error err => .error err
                  | .ok (v, rem'') =>
                      let acc' := objSet acc (String.mk kcs) v
                      match skipWs rem'' with
                      | ',' :: rem''' => parseMembers fuel rem''' acc'
                      | '\x7d' :: rem''' => .ok (.obj acc', rem''')
                      | _ => .error .decodeFailure
              | _ => .error .decodeFailure
      | _ => .error .decodeFailure
end

/-- JSON.parse as called by mergeItem and multiMerge on the result of
Map.get: an absent key yields undefined, which JSON.parse first converts to
the string undefined and then rejects with a SyntaxError. -/
def jsonParse (o : Option String) : Except JSErr JSValue :=
  let s := match o with
    | none => "undefined"
    | some s => s
  match parseVal (s.data.length + 1) s.data with
  | .error err => .error err
  | .ok (v, rem) =>
      match skipWs rem with
      | [] => .ok v
      | _ => .error .decodeFailure

/-- String escaping for JSON.stringify, restricted to the quote and
backslash escapes; no value in this repository stores control characters. -/
def escapeStr (s : String) : String :=
  "\"" ++ String.mk (s.data.foldr
    (fun c acc => if c = '"' ∨ c = '\\' then '\\' :: c :: acc else c :: acc) []) ++ "\""

mutual
/-- JSON.stringify on a value: undefined occurs only as an array element
filler here and renders as null. -/
def stringifyVal (v : JSValue) : String :=
  match v with
  | .undef => "null"
  | .null => "null"
  | .bool true => "true"
  | .bool false => "false"
  | .num n => toString n
  | .str s => escapeStr s
  | .arr elems => "[" ++ String.intercalate "," (stringifyElems elems) ++ "]"
  | .obj fields => "\x7b" ++ String.intercalate "," (stringifyFields fields) ++ "\x7d"
termination_by sizeOf v

/-- Rendered array elements. -/
def stringifyElems (es : List JSValue) : List String :=
  match es with
  | [] => []
  | v :: rest => stringifyVal v :: stringifyElems rest
termination_by sizeOf es

/-- Rendered object members; a member holding undefined is dropped. -/
def stringifyFields (fs : List (String × JSValue)) : List String :=
  match fs with
  | [] => []
  | (k, v) :: rest =>
      match v with
      | .undef => stringifyFields rest
      | v => (escapeStr k ++ ":" ++ stringifyVal v) :: stringifyFields rest
termination_by sizeOf fs
end

/-- JSON.stringify on the value merge returns: a wrapper object built from a
primitive stringifies as the primitive itself, its added properties are
ignored. -/
def stringifyMerged : MergedVal → String
  | .plain v => stringifyVal v
  | .wrapped p _ => stringifyVal p

/-- getItem from src/index.js: null for an absent key, the stored string
otherwise.  Every operation returns its outcome together with the store
left behind, which records mutations made before a throw. -/
def getItem (store : Store) (name : String) : Except JSErr JSRes × Store :=
  match mapGet store name with
  | none => (.ok (.val .null), store)
  | some v => (.ok (.val (.str v)), store)

/-- setItem from src/index.js: a non-string value makes it throw the string
type guard Error before touching the store; a string value is stored and
the Map itself is returned. -/
def setItem (store : Store) (name : String) (value : JSValue) : Except JSErr JSRes × Store :=
  match value with
  | .str s => (.ok .mapRef, mapSet store name s)
  | _ => (.error .typeValidation, store)

/-- mergeItem from src/index.js: guards that the value is a string, parses
the previously stored value (undefined when the key is absent), parses the
incoming value, deep merges, stringifies and stores.  A throw at any step
leaves the store untouched. -/
def mergeItem (store : Store) (name : String) (value : JSValue) : Except JSErr JSRes × Store :=
  match value with
  | .str s =>
      match jsonParse (mapGet store name) with
      | .error e => (.error e, store)
      | .ok oldValue =>
          match jsonParse (some s) with
          | .error e => (.error e, store)
          | .ok newValue =>
              match merge (some oldValue) newValue with
              | .error e => (.error e, store)
              | .ok m => (.ok .mapRef, mapSet store name (stringifyMerged m))
  | _ => (.error .typeValidation, store)

/-- removeItem from src/index.js: Map.delete, returning its boolean. -/
def removeItem (store : Store) (name : String) : Except JSErr JSRes × Store :=
  ((.ok (.val (.bool (mapDelete store name).2))), (mapDelete store name).1)

/-- The conditional internal.has name then internal.get name else null from
multiGet. -/
def storedOrNull (store : Store) (n : String) : JSValue :=
  match mapGet store n with
  | some v => .str v
  | none => .null

/-- multiGet from src/index.js: one key and value pair per requested name,
in request order; the store is not touched. -/
def multiGet (store : Store) (names : List String) : Except JSErr JSRes × Store :=
  (.ok (.val (.arr (names.map (fun n => .arr [.str n, storedOrNull store n])))), store)

/-- The forEach of multiSet: each pair is type checked and stored in input
order, and the first non-string value throws, leaving the earlier pairs
applied. -/
def multiSetGo (store : Store) : List (String × JSValue) → Except JSErr Unit × Store
  | [] => (.ok (), store)
  | (k, v) :: rest =>
      match v with
      | .str s => multiSetGo (mapSet store k s) rest
      | _ => (.error .typeValidation, store)

/-- The pairs argument of multiSet as a JavaScript value, which multiSet
returns on success. -/
def pairsVal (pairs : List (String × JSValue)) : JSValue :=
  .arr (pairs.map (fun p => .arr [.str p.1, p.2]))

/-- multiSet from src/index.js. -/
def multiSet (store : Store) (pairs : List (String × JSValue)) : Except JSErr JSRes × Store :=
  match multiSetGo store pairs with
  | (.ok _, store') => (.ok (.val (pairsVal pairs)), store')
  | (.error e, store') => (.error e, store')

/-- The forEach of multiMerge: per pair the same guard, parse, merge,
stringify, store sequence as mergeItem, stopping at the first throw with the
earlier pairs applied. -/
def multiMergeGo (store : Store) : List (String × JSValue) → Except JSErr Unit × Store
  | [] => (.ok (), store)
  | (k, v) :: rest =>
      match v with
      | .str s =>
          match jsonParse (mapGet store k) with
          | .error e => (.error e, store)
          | .ok oldValue =>
              match jsonParse (some s) with
              | .error e => (.error e, store)
              | .ok newValue =>
                  match merge (some oldValue) newValue with
                  | .error e => (.error e, store)
                  | .ok m => multiMergeGo (mapSet store k (stringifyMerged m)) rest
      | _ => (.error .typeValidation, store)

/-- multiMerge from src/index.js; its forEach produces no value, so the
operation resolves with undefined. -/
def multiMerge (store : Store) (pairs : List (String × JSValue)) : Except JSErr JSRes × Store :=
  match multiMergeGo store pairs with
  | (.ok _, store') => (.ok (.val .undef), store')
  | (.error e, store') => (.error e, store')

/-- The map of multiRemove: Map.delete per name in order, collecting the
booleans. -/
def multiRemoveGo (store : Store) : List String → List Bool × Store
  | [] => ([], store)
  | n :: rest =>
      let (store', existed) := mapDelete store n
      let (bs, store'') := multiRemoveGo store' rest
      (existed :: bs, store'')

/-- multiRemove from src/index.js. -/
def multiRemove (store : Store) (names : List String) : Except JSErr JSRes × Store :=
  let (bs, store') := multiRemoveGo store names
  (.ok (.val (.arr (bs.map JSValue.bool))), store')

/-- getAllKeys from src/index.js: all keys in insertion order. -/
def getAllKeys (store : Store) : Except JSErr JSRes × Store :=
  (.ok (.val (.arr ((mapKeys store).map JSValue.str))), store)

/-- clear from src/index.js: Map.clear, which returns undefined. -/
def clear (_store : Store) : Except JSErr JSRes × Store :=
  (.ok (.val .undef), [])

/-- flushGetRequests from src/index.js: does nothing. -/
def flushGetRequests (store : Store) : Except JSErr JSRes × Store :=
  (.ok (.val .undef), store)

/-- A public operation together with its arguments.  Keys are strings, as
every documented call supplies them; values stay arbitrary JavaScript
values so the string guards are observable. -/
inductive Op where
  | getItem : String → Op
  | setItem : String → JSValue → Op
  | mergeItem : String → JSValue → Op
  | removeItem : String → Op
  | multiGet : List String → Op
  | multiSet : List (String × JSValue) → Op
  | multiMerge : List (String × JSValue) → Op
  | multiRemove : List String → Op
  | getAllKeys : Op
  | clear : Op
  | flushGetRequests : Op

/-- Dispatch of an invocation to the underlying function it was wrapped
from. -/
def runOp : Op → Store → Except JSErr JSRes × Store
  | .getItem n, store => getItem store n
  | .setItem n v, store => setItem store n v
  | .mergeItem n v, store => mergeItem store n v
  | .removeItem n, store => removeItem store n
  | .multiGet ns, store => multiGet store ns
  | .multiSet ps, store => multiSet store ps
  | .multiMerge ps, store => multiMerge store ps
  | .multiRemove ns, store => multiRemove store ns
  | .getAllKeys, store => getAllKeys store
  | .clear, store => clear store
  | .flushGetRequests, store => flushGetRequests store

/-- The callback dispatch inside the wrapper of src/index.js, lines 35 to
47: error starts as null and result starts undefined; awaiting the
underlying function either fills result or, on a throw, fills error, and
the callback receives both.  On success the callback therefore sees a null
error beside whatever the function returned, and on failure the thrown
error beside a still-undefined result. -/
def cbInvoke : Except JSErr JSRes → Option JSErr × JSRes
  | .ok r => (none, r)
  | .error e => (some e, .val .undef)

/-- Whether a value handed to the callback is non-null in the sense of the
Node convention: neither null nor undefined. -/
def JSRes.nonNull : JSRes → Bool
  | .val .null => false
  | .val .undef => false
  | _ => true

/-- The store after deleting a sequence of keys in order. -/
def removeAll (store : Store) (names : List String) : Store :=
  names.foldl (fun st n => (mapDelete st n).1) store

/-- The store after applying a sequence of string pairs with Map.set in
order. -/
def applyPairs (store : Store) (pre : List (String × String)) : Store :=
  pre.foldl (fun st p => mapSet st p.1 p.2) store

/-- String pairs viewed as multiSet arguments. -/
def strPairs (pre : List (String × String)) : List (String × JSValue) :=
  pre.map (fun p => (p.1, JSValue.str p.2))

theorem charsVal_append_singleton (xs : List Char) (c : Char) :
    charsVal (xs ++ [c]) = 10 * charsVal xs + digitVal c := by
  simp [charsVal, List.foldl_append]

theorem digitVal_digitChar (d : Nat) (h : d < 10) : digitVal (digitChar d) = d := by
  interval_cases d <;> decide

theorem isDigitChar_digitChar (d : Nat) (h : d < 10) : isDigitChar (digitChar d) = true := by
  interval_cases d <;> decide

theorem digitChar_ne_zero (d : Nat) (h1 : 1 ≤ d) (h : d < 10) : digitChar d ≠ '0' := by
  interval_cases d <;> decide

theorem natToChars_ne_nil (n : Nat) : natToChars n ≠ [] := by
  unfold natToChars
  by_cases h : n < 10 <;> simp [h]

theorem charsVal_natToChars (n : Nat) : charsVal (natToChars n) = n := by
  induction n using Nat.strong_induction_on with
  | _ n ih =>
    unfold natToChars
    by_cases h : n < 10
    · simp only [h, if_true]
      have : charsVal [digitChar n] = digitVal (digitChar n) := by
        simp [charsVal, digitVal]
      rw [this, digitVal_digitChar n h]
    · simp only [h, if_false]
      rw [charsVal_append_singleton,
        ih (n / 10) (Nat.div_lt_self (by omega) (by omega)),
        digitVal_digitChar (n % 10) (Nat.mod_lt n (by omega))]
      omega

theorem natToChars_all_digits (n : Nat) : (natToChars n).all isDigitChar = true := by
  induction n using Nat.strong_induction_on with
  | _ n ih =>
    unfold natToChars
    by_cases h : n < 10
    · simp [h, isDigitChar_digitChar n h]
    · simp only [h, if_false, List.all_append]
      rw [ih (n / 10) (Nat.div_lt_self (by omega) (by omega))]
      simp [isDigitChar_digitChar (n % 10) (Nat.mod_lt n (by omega))]

theorem natToChars_head_ne_zero (n : Nat) (hn : 1 ≤ n) :
    ∀ c cs, natToChars n = c :: cs → c ≠ '0' := by
  induction n using Nat.strong_induction_on with
  | _ n ih =>
    intro c cs hc
    unfold natToChars at hc
    by_cases h : n < 10
    · simp only [h, if_true] at hc
      cases hc
      exact digitChar_ne_zero n hn h
    · simp only [h, if_false] at hc
      cases hne : natToChars (n / 10) with
      | nil => exact absurd hne (natToChars_ne_nil (n / 10))
      | cons c' cs' =>
        rw [hne] at hc
        have hc' : c' = c := by
          have := congrArg (fun l => l.head?) hc
          simpa using this
        subst hc'
        exact ih (n / 10) (Nat.div_lt_self (by omega) (by omega))
          (by omega) c' cs' hne

theorem canonIndex_strOfNat (n : Nat) : canonIndex (strOfNat n) = some n := by
  have hdata : (strOfNat n).data = natToChars n := rfl
  unfold canonIndex
  rw [hdata]
  cases hne : natToChars n with
  | nil => exact absurd hne (natToChars_ne_nil n)
  | cons c cs =>
    have hall : (c :: cs).all isDigitChar = true := by
      rw [← hne]; exact natToChars_all_digits n
    have hval : charsVal (c :: cs) = n := by
      rw [← hne]; exact charsVal_natToChars n
    by_cases h : n < 10
    · have hsingle : natToChars n = [digitChar n] := by
        unfold natToChars; simp [h]
      rw [hsingle] at hne
      cases hne
      simp [hall, hval]
    · have hc : c ≠ '0' := natToChars_head_ne_zero n (by omega) c cs hne
      simp [hall, hc, hval]

theorem objLookup_objSet_self (fs : List (String × JSValue)) (k : String) (v : JSValue) :
    objLookup (objSet fs k v) k = some v := by
  induction fs with
  | nil => simp [objSet, objLookup]
  | cons p rest ih =>
    obtain ⟨k', v'⟩ := p
    by_cases h : k' = k <;> simp [objSet, objLookup, h, ih]

theorem objLookup_objSet_ne (fs : List (String × JSValue)) (k k' : String) (v : JSValue)
    (h : k' ≠ k) : objLookup (objSet fs k v) k' = objLookup fs k' := by
  have hkk : ¬(k = k') := fun hh => h hh.symm
  induction fs with
  | nil =>
    simp [objSet, objLookup, hkk]
  | cons p rest ih =>
    obtain ⟨k0, v0⟩ := p
    by_cases h0 : k0 = k
    · subst h0
      simp [objSet, objLookup, hkk]
    · by_cases h1 : k0 = k' <;> simp [objSet, objLookup, h0, h1, ih, hkk, h]

theorem objLookup_eq_none_iff (fs : List (String × JSValue)) (k : String) :
    objLookup fs k = none ↔ k ∉ fs.map Prod.fst := by
  induction fs with
  | nil => simp [objLookup]
  | cons p rest ih =>
    obtain ⟨k0, v0⟩ := p
    by_cases h : k0 = k
    · subst h
      simp [objLookup]
    · have : ¬(k = k0) := fun hh => h hh.symm
      simp [objLookup, h, ih, this]

theorem foldl_objSet_lookup_not_mem (entries : List (String × JSValue)) :
    ∀ init k, k ∉ entries.map Prod.fst →
    objLookup (entries.foldl (fun fs p => objSet fs p.1 p.2) init) k = objLookup init k := by
  induction entries with
  | nil => intro init k _; rfl
  | cons p rest ih =>
    intro init k h
    simp only [List.map_cons, List.mem_cons, not_or] at h
    rw [List.foldl_cons, ih (objSet init p.1 p.2) k h.2,
      objLookup_objSet_ne init p.1 k p.2 h.1]

theorem foldl_objSet_lookup_mem (entries : List (String × JSValue)) :
    ∀ init k v, (entries.map Prod.fst).Nodup → (k, v) ∈ entries →
    objLookup (entries.foldl (fun fs p => objSet fs p.1 p.2) init) k = some v := by
  induction entries with
  | nil => intro init k v _ hmem; cases hmem
  | cons p rest ih =>
    intro init k v hnd hmem
    obtain ⟨k0, v0⟩ := p
    simp only [List.map_cons, List.nodup_cons] at hnd
    rw [List.foldl_cons]
    rcases List.mem_cons.mp hmem with heq | hrest
    · have hk : k = k0 := (Prod.mk.injEq k v k0 v0 ▸ heq).1
      have hv : v = v0 := (Prod.mk.injEq k v k0 v0 ▸ heq).2
      subst hk; subst hv
      rw [foldl_objSet_lookup_not_mem rest _ k hnd.1, objLookup_objSet_self]
    · exact ih (objSet init k0 v0) k v hnd.2 hrest

theorem objSet_not_mem_append (fs : List (String × JSValue)) (k : String) (v : JSValue)
    (h : k ∉ fs.map Prod.fst) : objSet fs k v = fs ++ [(k, v)] := by
  induction fs with
  | nil => rfl
  | cons p rest ih =>
    simp only [List.map_cons, List.mem_cons, not_or] at h
    have : ¬(p.1 = k) := fun hh => h.1 hh.symm
    obtain ⟨k0, v0⟩ := p
    simp only at this
    simp [objSet, this, ih h.2]

theorem foldl_objSet_disjoint (entries : List (String × JSValue)) :
    ∀ init, (entries.map Prod.fst).Nodup →
    (∀ p ∈ entries, p.1 ∉ init.map Prod.fst) →
    entries.foldl (fun fs p => objSet fs p.1 p.2) init = init ++ entries := by
  induction entries with
  | nil => intro init _ _; simp
  | cons p rest ih =>
    intro init hnd hdis
    simp only [List.map_cons, List.nodup_cons] at hnd
    rw [List.foldl_cons, objSet_not_mem_append init p.1 p.2 (hdis p (by simp)),
      ih (init ++ [(p.1, p.2)]) hnd.2 ?_]
    · simp
    · intro q hq
      simp only [List.map_append, List.mem_append, not_or]
      refine ⟨hdis q (by simp [hq]), ?_⟩
      simp only [List.map_cons, List.map_nil, List.mem_singleton]
      intro hq1
      exact hnd.1 (hq1 ▸ List.mem_map_of_mem Prod.fst hq)

theorem mapGet_mapSet_self (st : Store) (k : String) (v : String) :
    mapGet (mapSet st k v) k = some v := by
  induction st with
  | nil => simp [mapSet, mapGet]
  | cons p rest ih =>
    obtain ⟨k0, v0⟩ := p
    by_cases h : k0 = k <;> simp [mapSet, mapGet, h, ih]

theorem mapGet_mapSet_ne (st : Store) (k k' : String) (v : String) (h : k' ≠ k) :
    mapGet (mapSet st k v) k' = mapGet st k' := by
  have hkk : ¬(k = k') := fun hh => h hh.symm
  induction st with
  | nil => simp [mapSet, mapGet, hkk]
  | cons p rest ih =>
    obtain ⟨k0, v0⟩ := p
    by_cases h0 : k0 = k
    · subst h0
      simp [mapSet, mapGet, hkk]
    · by_cases h1 : k0 = k' <;> simp [mapSet, mapGet, h0, h1, ih, hkk, h]

theorem mapGet_mapDelete_self (st : Store) (k : String) :
    mapGet (mapDelete st k).1 k = none := by
  simp only [mapDelete, decide_not]
  induction st with
  | nil => rfl
  | cons p rest ih =>
    obtain ⟨k0, v0⟩ := p
    by_cases h : k0 = k
    · subst h
      simpa [List.filter_cons] using ih
    · simpa [List.filter_cons, h, mapGet] using ih

theorem mapGet_mapDelete_ne (st : Store) (k k' : String) (h : k' ≠ k) :
    mapGet (mapDelete st k).1 k' = mapGet st k' := by
  simp only [mapDelete, decide_not]
  induction st with
  | nil => rfl
  | cons p rest ih =>
    obtain ⟨k0, v0⟩ := p
    by_cases h0 : k0 = k
    · subst h0
      have hne : ¬(k0 = k') := fun hh => h (hh.symm)
      simpa [List.filter_cons, mapGet, hne] using ih
    · simp only [List.filter_cons, decide_eq_true_eq, h0, Bool.not_false, decide_False,
        if_true]
      by_cases h1 : k0 = k' <;> simp [mapGet, h1, ih]

theorem mapDelete_snd_eq_mapHas (st : Store) (k : String) :
    (mapDelete st k).2 = mapHas st k := by
  simp only [mapDelete, mapHas]
  induction st with
  | nil => rfl
  | cons p rest ih =>
    obtain ⟨k0, v0⟩ := p
    by_cases h : k0 = k <;> simp [List.any_cons, mapGet, h, ih]

theorem mapGet_removeAll_none (ms : List String) :
    ∀ st n, mapGet st n = none → mapGet (removeAll st ms) n = none := by
  induction ms with
  | nil => intro st n h; exact h
  | cons m rest ih =>
    intro st n h
    show mapGet (removeAll (mapDelete st m).1 rest) n = none
    apply ih
    by_cases hnm : n = m
    · subst hnm
      exact mapGet_mapDelete_self st n
    · rw [mapGet_mapDelete_ne st m n hnm]
      exact h

theorem mapGet_removeAll_mem (ms : List String) :
    ∀ st n, n ∈ ms → mapGet (removeAll st ms) n = none := by
  induction ms with
  | nil => intro st n h; cases h
  | cons m rest ih =>
    intro st n h
    show mapGet (removeAll (mapDelete st m).1 rest) n = none
    rcases List.mem_cons.mp h with heq | hrest
    · subst heq
      exact mapGet_removeAll_none rest (mapDelete st n).1 n (mapGet_mapDelete_self st n)
    · exact ih (mapDelete st m).1 n hrest

theorem multiRemoveGo_store (names : List String) :
    ∀ st, (multiRemoveGo st names).2 = removeAll st names := by
  induction names with
  | nil => intro st; rfl
  | cons n rest ih =>
    intro st
    show (multiRemoveGo st (n :: rest)).2 = removeAll (mapDelete st n).1 rest
    simp only [multiRemoveGo]
    exact ih (mapDelete st n).1

theorem multiRemoveGo_length (names : List String) :
    ∀ st, (multiRemoveGo st names).1.length = names.length := by
  induction names with
  | nil => intro st; rfl
  | cons n rest ih =>
    intro st
    simp only [multiRemoveGo, List.length_cons]
    rw [ih (mapDelete st n).1]

theorem multiRemoveGo_get (names : List String) :
    ∀ st i, (multiRemoveGo st names).1[i]? =
      (names[i]?).map (fun n => mapHas (removeAll st (names.take i)) n) := by
  induction names with
  | nil => intro st i; simp [multiRemoveGo]
  | cons n rest ih =>
    intro st i
    cases i with
    | zero =>
      simp only [multiRemoveGo, List.getElem?_cons_zero, List.take_zero, Option.map_some]
      rw [mapDelete_snd_eq_mapHas]
      rfl
    | succ i =>
      simp only [multiRemoveGo, List.getElem?_cons_succ, List.take_succ_cons]
      exact ih (mapDelete st n).1 i

theorem multiSetGo_strPairs (pre : List (String × String)) :
    ∀ st, multiSetGo st (strPairs pre) = (.ok (), applyPairs st pre) := by
  induction pre with
  | nil => intro st; rfl
  | cons p rest ih =>
    intro st
    obtain ⟨k, v⟩ := p
    show multiSetGo (mapSet st k v) (strPairs rest) = _
    exact ih (mapSet st k v)

theorem mergeFields_keys (t : Option JSValue) : ∀ fs fs', mergeFields t fs = .ok fs' →
    List.map Prod.fst fs' = List.map Prod.fst fs := by
  intro fs
  induction fs with
  | nil =>
    intro fs' h
    simp only [mergeFields] at h
    cases h
    rfl
  | cons p rest ih =>
    intro fs' h
    obtain ⟨k, v⟩ := p
    simp only [mergeFields] at h
    split at h
    · split at h
      · cases h
      · split at h
        · cases h
        · split at h
          · cases h
          · cases h
            rename_i rest' hmf
            simp [ih rest' hmf]
    · split at h
      · cases h
      · cases h
        rename_i rest' hmf
        simp [ih rest' hmf]

theorem mergeFields_mem_not_object (t : Option JSValue) : ∀ fs fs' k v,
    mergeFields t fs = .ok fs' → (k, v) ∈ fs → v.isObject = false → (k, v) ∈ fs' := by
  intro fs
  induction fs with
  | nil => intro fs' k v _ hmem; cases hmem
  | cons p rest ih =>
    intro fs' k v h hmem hobj
    obtain ⟨k0, v0⟩ := p
    simp only [mergeFields] at h
    split at h
    · rename_i hv
      split at h
      · cases h
      · split at h
        · cases h
        · split at h
          · cases h
          · cases h
            rename_i rest' hmf
            rcases List.mem_cons.mp hmem with heq | hrest
            · have hk : v = v0 := (Prod.mk.injEq k v k0 v0 ▸ heq).2
              rw [hk] at hobj
              rw [hobj] at hv
              cases hv
            · exact List.mem_cons_of_mem _ (ih rest' k v hmf hrest hobj)
    · split at h
      · cases h
      · cases h
        rename_i rest' hmf
        rcases List.mem_cons.mp hmem with heq | hrest
        · exact heq ▸ List.mem_cons_self _ _
        · exact List.mem_cons_of_mem _ (ih rest' k v hmf hrest hobj)

theorem mergeFields_flat (t : Option JSValue) : ∀ fs,
    (∀ p ∈ fs, JSValue.isObject p.2 = false) → mergeFields t fs = .ok fs := by
  intro fs
  induction fs with
  | nil => intro _; simp [mergeFields]
  | cons p rest ih =>
    intro h
    obtain ⟨k, v⟩ := p
    have hv : v.isObject = false := h (k, v) (by simp)
    simp only [mergeFields, hv, if_false, Bool.false_eq_true]
    rw [ih (fun q hq => h q (List.mem_cons_of_mem _ hq))]

theorem mergeElems_flat (t : Option JSValue) : ∀ es j,
    (∀ a ∈ es, JSValue.isObject a = false) → mergeElems t j es = .ok es := by
  intro es
  induction es with
  | nil => intro j _; simp [mergeElems]
  | cons a rest ih =>
    intro j h
    have ha : a.isObject = false := h a (by simp)
    simp only [mergeElems, ha, if_false, Bool.false_eq_true]
    rw [ih (j + 1) (fun q hq => h q (List.mem_cons_of_mem _ hq))]

theorem arrSet_eq (T : List JSValue) (i : Nat) (v : JSValue) (h : i ≤ T.length) :
    arrSet T i v = T.take i ++ v :: T.drop (i + 1) := by
  unfold arrSet
  by_cases hlt : i < T.length
  · rw [if_pos hlt]
    exact List.set_eq_take_cons_drop v hlt
  · have hi : i = T.length := by omega
    subst hi
    rw [if_neg hlt]
    simp [List.take_of_length_le (Nat.le_refl _),
      List.drop_eq_nil_of_le (Nat.le_succ _)]

theorem arrSet_length_ge (T : List JSValue) (i : Nat) (v : JSValue) (h : i ≤ T.length) :
    i + 1 ≤ (arrSet T i v).length := by
  rw [arrSet_eq T i v h]
  simp only [List.length_append, List.length_take, List.length_cons]
  omega

theorem assignOnto_arr_from (A : List JSValue) :
    ∀ (T : List JSValue) (j : Nat), j ≤ T.length →
    (indexEntriesFrom j A).foldl (fun es p =>
      match canonIndex p.1 with
      | some i => arrSet es i p.2
      | none => es) T = T.take j ++ A ++ T.drop (j + A.length) := by
  induction A with
  | nil =>
    intro T j h
    simp [indexEntriesFrom]
  | cons a A' ih =>
    intro T j h
    simp only [indexEntriesFrom, List.foldl_cons, canonIndex_strOfNat]
    rw [ih (arrSet T j a) (j + 1) (arrSet_length_ge T j a h)]
    rw [arrSet_eq T j a h]
    have htake : (T.take j).length = j := by
      simp only [List.length_take]
      omega
    rw [List.take_append_eq_append_take, List.drop_append_eq_append_drop, htake,
      List.take_of_length_le (by omega : (T.take j).length ≤ j + 1),
      List.drop_eq_nil_of_le (by omega : (T.take j).length ≤ j + 1 + A'.length)]
    have h1 : j + 1 - j = 1 := by omega
    have h2 : j + 1 + A'.length - j = 1 + A'.length := by omega
    rw [h1, h2]
    simp only [List.take_succ_cons, List.take_zero, List.nil_append,
      List.length_cons, List.length_append]
    have h3 : 1 + A'.length = A'.length + 1 := by omega
    rw [h3]
    simp only [List.drop_succ_cons, List.drop_drop]
    have h4 : j + 1 + A'.length = j + (A'.length + 1) := by omega
    rw [h4]
    simp

theorem assignOnto_arr (T A : List JSValue) :
    assignOnto (.arr T) (indexEntries A) = .arr (A ++ T.drop A.length) := by
  simp only [assignOnto, indexEntries]
  rw [assignOnto_arr_from A T 0 (Nat.zero_le _)]
  simp

theorem multiSetGo_offender (k : String) (v : JSValue) (post : List (String × JSValue))
    (hv : ∀ s, v ≠ .str s) : ∀ (pre : List (String × String)) (st : Store),
    multiSetGo st (strPairs pre ++ (k, v) :: post) = (.error .typeValidation, applyPairs st pre) := by
  intro pre
  induction pre with
  | nil =>
    intro st
    show multiSetGo st ((k, v) :: post) = (.error .typeValidation, st)
    cases v with
    | undef => rfl
    | null => rfl
    | bool b => rfl
    | num n => rfl
    | str s => exact absurd rfl (hv s)
    | arr es => rfl
    | obj fs => rfl
  | cons p rest ih =>
    intro st
    obtain ⟨k0, v0⟩ := p
    show multiSetGo (mapSet st k0 v0) (strPairs rest ++ (k, v) :: post) = _
    exact ih (mapSet st k0 v0)

/-- C2 counterexample: the claim says that on success the result handed to
the callback is non-null, for every operation including clear.  But clear
resolves with undefined, so its callback receives a null error and a
result that is not non-null. -/
theorem c2_clear_callback_both_null :
    cbInvoke (clear [("k", "v")]).1 = (none, .val .undef) ∧
    JSRes.nonNull (.val .undef) = false :=
  ⟨rfl, rfl⟩

/-- C2, amended: for every public operation invoked with a trailing callback,
the callback receives the pair of error and result where, on success, the
error is null and the result is exactly the value the underlying function
returned, which may itself be null or undefined; on a throw the error is the
thrown error and the result is undefined; the error is null exactly when the
call succeeded. -/
theorem c2_callback_channels : ∀ (op : Op) (store : Store),
    (∀ r, (runOp op store).1 = .ok r → cbInvoke (runOp op store).1 = (none, r)) ∧
    (∀ e, (runOp op store).1 = .error e →
      cbInvoke (runOp op store).1 = (some e, .val .undef)) ∧
    ((cbInvoke (runOp op store).1).1 = none ↔ ∃ r, (runOp op store).1 = .ok r) := by
  intro op store
  refine ⟨?_, ?_, ?_⟩
  · intro r h
    rw [h]
    rfl
  · intro e h
    rw [h]
    rfl
  · cases h : (runOp op store).1 with
    | ok r => simp [cbInvoke]
    | error e => simp [cbInvoke]

/-- C2 witness for the amended theorem, at the clear operation. -/
theorem c2_callback_channels_witness :
    cbInvoke (runOp .clear [("k", "v")]).1 = (none, .val .undef) :=
  (c2_callback_channels .clear [("k", "v")]).1 (.val .undef) rfl

/-- C3: setItem with a non-string value fails with the type-validation error
and leaves the store unchanged; setItem with a string stores it under the
key, overwriting any prior value and touching no other key. -/
theorem c3_setItem_type_guard :
    (∀ (store : Store) (k : String) (v : JSValue), (∀ s, v ≠ .str s) →
      setItem store k v = (.error .typeValidation, store)) ∧
    (∀ (store : Store) (k s : String),
      setItem store k (.str s) = (.ok .mapRef, mapSet store k s) ∧
      mapGet (mapSet store k s) k = some s ∧
      ∀ k', k' ≠ k → mapGet (mapSet store k s) k' = mapGet store k') := by
  constructor
  · intro store k v h
    cases v with
    | undef => rfl
    | null => rfl
    | bool b => rfl
    | num n => rfl
    | str s => exact absurd rfl (h s)
    | arr es => rfl
    | obj fs => rfl
  · intro store k s
    exact ⟨rfl, mapGet_mapSet_self store k s, fun k' hk => mapGet_mapSet_ne store k k' s hk⟩

/-- C3 witness: a non-string value is rejected without touching the store,
and a stored string is readable back. -/
theorem c3_setItem_type_guard_witness :
    setItem [] "k" (.num 1) = (.error .typeValidation, []) ∧
    mapGet (mapSet [("a", "x")] "k" "v") "k" = some "v" :=
  ⟨c3_setItem_type_guard.1 [] "k" (.num 1) (fun s => by simp),
   (c3_setItem_type_guard.2 [("a", "x")] "k" "v").2.1⟩

/-- C4: after a successful setItem the same key reads back exactly the
stored string; a key that is absent, or was just removed, reads as null; and
getItem never fails and never mutates the store. -/
theorem c4_roundtrip :
    (∀ (store : Store) (k s : String),
      getItem (setItem store k (.str s)).2 k = (.ok (.val (.str s)), mapSet store k s)) ∧
    (∀ (store : Store) (k : String), mapGet store k = none →
      getItem store k = (.ok (.val .null), store)) ∧
    (∀ (store : Store) (k : String),
      getItem (removeItem store k).2 k = (.ok (.val .null), (removeItem store k).2)) ∧
    (∀ (store : Store) (k : String), ∃ r, getItem store k = (.ok r, store)) := by
  refine ⟨?_, ?_, ?_, ?_⟩
  · intro store k s
    show getItem (mapSet store k s) k = _
    simp [getItem, mapGet_mapSet_self]
  · intro store k h
    simp [getItem, h]
  · intro store k
    show getItem (mapDelete store k).1 k = _
    simp [getItem, removeItem, mapGet_mapDelete_self]
  · intro store k
    cases h : mapGet store k with
    | none => exact ⟨.val .null, by simp [getItem, h]⟩
    | some v => exact ⟨.val (.str v), by simp [getItem, h]⟩

/-- C4 witness: reading a key that was never set yields null. -/
theorem c4_roundtrip_witness :
    getItem ([] : Store) "missing" = (.ok (.val .null), []) :=
  c4_roundtrip.2.1 [] "missing" rfl

/-- C6: multiGet answers one key and value pair per requested key, in
request order with duplicates kept, pairing each key with its stored string
or null, and it never mutates the store. -/
theorem c6_multiGet_spec : ∀ (store : Store) (names : List String),
    (multiGet store names).2 = store ∧
    ∃ l : List JSValue, (multiGet store names).1 = .ok (.val (.arr l)) ∧
      l.length = names.length ∧
      ∀ i : Nat, l[i]? = (names[i]?).map (fun n => JSValue.arr [.str n, storedOrNull store n]) := by
  intro store names
  refine ⟨rfl, names.map (fun n => JSValue.arr [.str n, storedOrNull store n]), rfl,
    by simp, ?_⟩
  intro i
  simp

/-- C7: multiRemove answers one boolean per requested key in request order,
each reporting whether the key was present just before its own removal, and
afterwards every requested key reads as null. -/
theorem c7_multiRemove_spec : ∀ (store : Store) (names : List String),
    multiRemove store names =
      (.ok (.val (.arr ((multiRemoveGo store names).1.map JSValue.bool))),
        removeAll store names) ∧
    (multiRemoveGo store names).1.length = names.length ∧
    (∀ i : Nat, (multiRemoveGo store names).1[i]? =
      (names[i]?).map (fun n => mapHas (removeAll store (names.take i)) n)) ∧
    (∀ n, n ∈ names → (getItem (removeAll store names) n).1 = .ok (.val .null)) := by
  intro store names
  refine ⟨?_, multiRemoveGo_length names store, multiRemoveGo_get names store, ?_⟩
  · cases hgo : multiRemoveGo store names with
    | mk bs st' =>
      have h2 := multiRemoveGo_store names store
      rw [hgo] at h2
      simp [multiRemove, hgo, h2]
  · intro n hn
    simp [getItem, mapGet_removeAll_mem names store n hn]

/-- C7 witness: after removing the listed keys, each of them reads as null. -/
theorem c7_multiRemove_spec_witness :
    (getItem (removeAll [("a", "1"), ("c", "3")] ["a", "b", "c"]) "b").1 =
      .ok (.val .null) :=
  (c7_multiRemove_spec [("a", "1"), ("c", "3")] ["a", "b", "c"]).2.2.2 "b" (by simp)

/-- C8: multiSet applies the pairs with Map.set in input order; when a pair
carries a non-string value, the call fails with the type-validation error
and exactly the pairs strictly before the first offending pair have been
applied, with no rollback. -/
theorem c8_multiSet_partial :
    (∀ (store : Store) (pre : List (String × String)),
      multiSet store (strPairs pre) =
        (.ok (.val (pairsVal (strPairs pre))), applyPairs store pre)) ∧
    (∀ (store : Store) (pre : List (String × String)) (k : String) (v : JSValue)
      (post : List (String × JSValue)), (∀ s, v ≠ .str s) →
      multiSet store (strPairs pre ++ (k, v) :: post) =
        (.error .typeValidation, applyPairs store pre)) := by
  constructor
  · intro store pre
    simp [multiSet, multiSetGo_strPairs pre store]
  · intro store pre k v post hv
    simp [multiSet, multiSetGo_offender k v post hv pre store]

/-- C8 witness: a concrete batch where the second value is a number stops
there with the first pair applied, and a fully string batch applies all of
its pairs in order. -/
theorem c8_multiSet_partial_witness :
    multiSet [] [("a", .str "1"), ("b", .num 3), ("c", .str "3")] =
      (.error .typeValidation, [("a", "1")]) ∧
    multiSet [] [("a", .str "1"), ("b", .str "2")] =
      (.ok (.val (pairsVal [("a", .str "1"), ("b", .str "2")])), [("a", "1"), ("b", "2")]) := by
  constructor
  · have h := c8_multiSet_partial.2 [] [("a", "1")] "b" (.num 3) [("c", .str "3")]
      (fun s => by simp)
    simpa [strPairs, applyPairs, mapSet] using h
  · have h := c8_multiSet_partial.1 [] [("a", "1"), ("b", "2")]
    simpa [strPairs, applyPairs, mapSet] using h

/-- C10: merging into a key with no stored value first feeds undefined to
JSON.parse, which fails with a SyntaxError before anything is written, so
mergeItem surfaces the decode failure through the error channel and the
store is unchanged. -/
theorem c10_mergeItem_absent_decode_error : ∀ (store : Store) (name s : String),
    mapGet store name = none →
    mergeItem store name (.str s) = (.error .decodeFailure, store) ∧
    cbInvoke (mergeItem store name (.str s)).1 = (some .decodeFailure, .val .undef) := by
  intro store name s h
  have hp : jsonParse (mapGet store name) = .error .decodeFailure := by
    rw [h]
    rfl
  constructor
  · simp [mergeItem, hp]
  · simp [mergeItem, hp, cbInvoke]

/-- C10 witness: merging valid JSON into an absent key fails with the decode
error and leaves the empty store empty. -/
theorem c10_mergeItem_absent_decode_error_witness :
    mergeItem [] "json" (.str "1") = (.error .decodeFailure, []) :=
  (c10_mergeItem_absent_decode_error [] "json" "1" rfl).1

/-- C1 counterexample: the claim says an incoming array replaces the whole
target array.  But arrays are instances of Object, so the filter inside
merge keeps them and Object.assign combines them index by index: merging
the object holding the incoming array of one element nine into the target
holding one and two yields nine and two, not the incoming array alone. -/
theorem c1_incoming_array_not_wholesale :
    merge (some (.obj [("a", .arr [.num 1, .num 2])])) (.obj [("a", .arr [.num 9])])
      = .ok (.plain (.obj [("a", .arr [.num 9, .num 2])])) ∧
    JSValue.arr [.num 9, .num 2] ≠ .arr [.num 9] := by
  constructor
  · simp [merge, mergeFields, mergeElems, assignFinal, assignOnto, jsGet, jsOr,
      entriesOf, indexEntries, indexEntriesFrom, objSet, objLookup, canonIndex,
      strOfNat, natToChars, digitChar, charsVal, digitVal, isDigitChar, arrSet,
      MergedVal.ownEnum, JSValue.isObject]
  · simp

/-- C1, amended: for every key whose incoming value is a non-object
primitive (string, number, boolean, null) the incoming value overwrites the
target value at that key entirely; an incoming array, however, is an
instance of Object and is not taken wholesale: it is combined with a target
array index by index, the incoming elements overwriting at their indices
and the target elements beyond the incoming length being preserved. -/
theorem c1_primitive_overwrite_array_indexwise :
    (∀ (tf df : List (String × JSValue)) (k : String) (v : JSValue) (r : MergedVal),
      (df.map Prod.fst).Nodup → (k, v) ∈ df → v.isObject = false →
      merge (some (.obj tf)) (.obj df) = .ok r → r.lookupKey k = some v) ∧
    (∀ (k : String) (T A : List JSValue), (∀ a ∈ A, JSValue.isObject a = false) →
      merge (some (.obj [(k, .arr T)])) (.obj [(k, .arr A)]) =
        .ok (.plain (.obj [(k, .arr (A ++ T.drop A.length))]))) := by
  constructor
  · intro tf df k v r hnd hmem hobj h
    simp only [merge] at h
    split at h
    · cases h
    · rename_i df' hmf
      have hjor : jsOr (some (.obj tf)) = .obj tf := rfl
      rw [hjor] at h
      simp only [assignFinal, assignOnto] at h
      cases h
      simp only [MergedVal.lookupKey]
      apply foldl_objSet_lookup_mem df' tf k v
      · rw [mergeFields_keys (some (.obj tf)) df df' hmf]
        exact hnd
      · exact mergeFields_mem_not_object (some (.obj tf)) df df' k v hmf hmem hobj
  · intro k T A hA
    have hinner : merge (some (.arr T)) (.arr A) =
        .ok (.plain (.arr (A ++ T.drop A.length))) := by
      simp only [merge, mergeElems_flat (some (.arr T)) A 0 hA]
      show assignFinal (.arr T) (indexEntries A) = _
      simp only [assignFinal, assignOnto_arr]
    have hjg : jsGet (some (.obj [(k, .arr T)])) k = .ok (some (.arr T)) := by
      simp [jsGet, objLookup]
    have hassign : assignOnto (.arr A) (indexEntries (A ++ T.drop A.length)) =
        .arr (A ++ T.drop A.length) := by
      rw [assignOnto_arr A (A ++ T.drop A.length)]
      rw [List.drop_eq_nil_of_le (by simp : A.length ≤ (A ++ T.drop A.length).length)]
      simp
    have hmf : mergeFields (some (.obj [(k, .arr T)])) [(k, .arr A)] =
        .ok [(k, .arr (A ++ T.drop A.length))] := by
      simp only [mergeFields, JSValue.isObject, if_true, hjg, hinner,
        MergedVal.ownEnum, entriesOf, hassign]
    simp only [merge, hmf]
    show assignFinal (.obj [(k, .arr T)]) [(k, .arr (A ++ T.drop A.length))] = _
    simp [assignFinal, assignOnto, objSet]

/-- C1 witness for the amended theorem: a non-object incoming value lands
unchanged under its key, and the concrete array pair from the
counterexample merges index by index. -/
theorem c1_primitive_overwrite_array_indexwise_witness :
    MergedVal.lookupKey (.plain (.obj [("a", .str "x"), ("b", .num 2)])) "b" = some (.num 2) ∧
    merge (some (.obj [("a", .arr [.num 1, .num 2])])) (.obj [("a", .arr [.num 9])]) =
      .ok (.plain (.obj [("a", .arr [.num 9, .num 2])])) := by
  constructor
  · exact c1_primitive_overwrite_array_indexwise.1 [("a", .str "x")] [("b", .num 2)] "b"
      (.num 2) (.plain (.obj [("a", .str "x"), ("b", .num 2)])) (by simp) (by simp) rfl
      (by simp [merge, mergeFields, assignFinal, assignOnto, jsOr, objSet,
        JSValue.isObject])
  · have h := c1_primitive_overwrite_array_indexwise.2 "a" [.num 1, .num 2] [.num 9]
      (by simp [JSValue.isObject])
    simpa using h

/-- C5 counterexample: the claim says an absent target value is treated as
an empty object while the merge recurses.  But the forEach inside merge
reads target at the key before guarding against a falsy target, so when the
target key is absent and the incoming nested object has an object-valued
key of its own, the recursion dereferences undefined and throws a
TypeError instead of producing the incoming structure. -/
theorem c5_absent_target_nested_throws :
    merge (some (.obj [])) (.obj [("a", .obj [("b", .obj [])])]) = .error .typeError := by
  simp [merge, mergeFields, assignFinal, assignOnto, jsGet, jsOr, entriesOf, objSet,
    objLookup, MergedVal.ownEnum, JSValue.isObject]

/-- C5, amended: the deep merge recurses into every key of the incoming
value that holds a nested object, merging it against the target value at
that key, and keys present only in the target are preserved unchanged; the
documented example holds.  An absent target value is treated as an empty
object only when the incoming nested object has no object-valued keys of
its own; otherwise the recursion reads a property of undefined and fails
with a TypeError. -/
theorem c5_deep_merge_amended :
    merge (some (.obj [("foo", .str "bar"), ("deep", .obj [("foo", .str "bar")])]))
        (.obj [("deep", .obj [("foo", .str "value")])]) =
      .ok (.plain (.obj [("foo", .str "bar"), ("deep", .obj [("foo", .str "value")])])) ∧
    (∀ (tf df : List (String × JSValue)) (r : MergedVal) (k : String) (v : JSValue),
      merge (some (.obj tf)) (.obj df) = .ok r → objLookup df k = none →
      objLookup tf k = some v → r.lookupKey k = some v) ∧
    (∀ inner : List (String × JSValue), (inner.map Prod.fst).Nodup →
      (∀ p ∈ inner, JSValue.isObject p.2 = false) →
      merge none (.obj inner) = .ok (.plain (.obj inner))) := by
  refine ⟨?_, ?_, ?_⟩
  · simp [merge, mergeFields, assignFinal, assignOnto, jsGet, jsOr, entriesOf,
      objSet, objLookup, MergedVal.ownEnum, JSValue.isObject]
  · intro tf df r k v h hdf htf
    simp only [merge] at h
    split at h
    · cases h
    · rename_i df' hmf
      have hjor : jsOr (some (.obj tf)) = .obj tf := rfl
      rw [hjor] at h
      simp only [assignFinal, assignOnto] at h
      cases h
      simp only [MergedVal.lookupKey]
      rw [foldl_objSet_lookup_not_mem df' tf k ?_]
      · exact htf
      · rw [mergeFields_keys (some (.obj tf)) df df' hmf]
        exact (objLookup_eq_none_iff df k).mp hdf
  · intro inner hnd hflat
    simp only [merge, mergeFields_flat none inner hflat]
    show assignFinal (.obj []) inner = _
    simp only [assignFinal, assignOnto]
    rw [foldl_objSet_disjoint inner [] hnd (by simp)]
    simp

/-- C5 witness for the amended theorem: a target-only key survives a merge,
and a flat incoming object merged into an absent target value comes through
unchanged. -/
theorem c5_deep_merge_amended_witness :
    MergedVal.lookupKey (.plain (.obj [("a", .str "x"), ("b", .str "y")])) "a" =
      some (.str "x") ∧
    merge none (.obj [("g", .str "d")]) = .ok (.plain (.obj [("g", .str "d")])) := by
  constructor
  · exact c5_deep_merge_amended.2.1 [("a", .str "x")] [("b", .str "y")]
      (.plain (.obj [("a", .str "x"), ("b", .str "y")])) "a" (.str "x")
      (by simp [merge, mergeFields, assignFinal, assignOnto, jsOr, objSet,
        JSValue.isObject]) rfl rfl
  · exact c5_deep_merge_amended.2.2 [("g", .str "d")] (by simp)
      (by simp [JSValue.isObject])

end AsyncStorageApi
